import Mathlib

/-
Verification of the vulcan-prd-cli publishing core against its specification.

The development shallowly embeds the TypeScript sources:
  * `src/validate.ts` — `sanitizeFilename` (the Naming component);
  * `src/publish.ts`  — `upsertRegistry`, registry loading, and the
    `publishPrd` orchestration (classification, dry-run, remote writes).

Strings are modelled as Lean `String`/`List Char`; character classes use
ASCII code points, mirroring the regexes `[^a-z0-9]+`, `^-+|-+$` and `-+`.
JavaScript in-place array mutation is made explicit: `upsertRegistry` returns
both the registry value the function returns and the caller's view of its
`registry` argument after the call (the `items` array is shared between the
two when `registry.items` is an array, so mutations through the local
`items` binding are visible to the caller).
I/O collaborators (file read, git remote detection, the GitHub client) are
supplied as an environment of their results; remote mutations are recorded
as a list of write operations instead of being performed.
-/

namespace Vulcan

/-! ## Naming: `sanitizeFilename` (src/validate.ts:52-60) -/

/-- ASCII test for the regex character class `[a-z0-9]`:
code points 97-122 (`a`-`z`) and 48-57 (`0`-`9`). -/
def isAlnum (c : Char) : Bool :=
  (97 ≤ c.toNat && c.toNat ≤ 122) || (48 ≤ c.toNat && c.toNat ≤ 57)

/-- Character-wise lowercasing of ASCII letters `A`-`Z` (code points 65-90),
embedding `String.prototype.toLowerCase` for the inputs relevant here: any
character that is not a lowercase ASCII letter or digit is erased by the
following `[^a-z0-9]+` replacement either way. -/
def toLowerChar (c : Char) : Char :=
  if 65 ≤ c.toNat && c.toNat ≤ 90 then Char.ofNat (c.toNat + 32) else c

/-- Embeds `.replace(/[^a-z0-9]+/g, '-')`: each maximal run of characters
outside `[a-z0-9]` becomes a single hyphen.  The boolean says whether the
previous character belonged to such a run. -/
def squashAux : Bool → List Char → List Char
  | _, [] => []
  | inRun, c :: cs =>
    if isAlnum c then c :: squashAux false cs
    else if inRun then squashAux true cs
    else '-' :: squashAux true cs

/-- Embeds `.replace(/^-+|-+$/g, '')`: strip leading and trailing hyphen
runs. -/
def stripHyphens (l : List Char) : List Char :=
  ((l.dropWhile (fun c => c == '-')).reverse.dropWhile (fun c => c == '-')).reverse

/-- Embeds `.replace(-+ globally, '-')`: collapse every hyphen run to a single
hyphen.  The boolean says whether the previous character was a hyphen. -/
def collapseHyphens : Bool → List Char → List Char
  | _, [] => []
  | prevHyp, c :: cs =>
    if c == '-' then
      if prevHyp then collapseHyphens true cs
      else '-' :: collapseHyphens true cs
    else c :: collapseHyphens false cs

/-- The cleaning pipeline of `sanitizeFilename` up to and including
`.substring(0, 100)` (all surviving characters are ASCII, so the UTF-16
`substring` is a plain 100-character prefix). -/
def cleanedList (l : List Char) : List Char :=
  (collapseHyphens false (stripHyphens (squashAux false (l.map toLowerChar)))).take 100

/-- Embeds `sanitizeFilename` (src/validate.ts:52-60): the cleaning
pipeline, falling back to the fixed slug when the cleaned string is empty
(JavaScript `'' || fallback`). -/
def sanitizeList (l : List Char) : List Char :=
  let cleaned := cleanedList l
  if cleaned.isEmpty then "data-product-prd".toList else cleaned

/-- String-level wrapper of `sanitizeList`. -/
def sanitizeFilename (s : String) : String :=
  String.mk (sanitizeList s.toList)

/-! ## Registry data model (registry.json, src/publish.ts) -/

/-- The candidate entry built in `publishPrd` (src/publish.ts:160-167):
the fields supplied by a publish request. -/
structure EntryData where
  product_name : String
  domain : String
  owner_team : String
  source_repo : String
  prd_path : String
  tags : List String
deriving Repr, DecidableEq

/-- A stored registry item: the candidate fields plus the two timestamps
maintained by the upsert. -/
structure Item extends EntryData where
  created_at : String
  updated_at : String
deriving Repr, DecidableEq

/-- A parsed `registry.json` object.  `items = none` models a parsed JSON
object whose `items` field is missing or not an array (`Array.isArray`
false); `rest` carries the remaining top-level fields, which the object
spread `{ ...registry, items }` copies through unchanged. -/
structure Registry where
  version : Option String
  items : Option (List Item)
  rest : List (String × String)
deriving Repr, DecidableEq

/-- The freshly initialized registry `{ version: '1', items: [] }`
(src/publish.ts:152,156). -/
def initialRegistry : Registry :=
  { version := some "1", items := some [], rest := [] }

/-- The match predicate of the upsert (src/publish.ts:68-70):
`it.prd_path === entry.prd_path || it.product_name === entry.product_name`. -/
def entryMatches (e : EntryData) (it : Item) : Bool :=
  it.prd_path == e.prd_path || it.product_name == e.product_name

/-- The merged item of the update branch (src/publish.ts:74):
`{ ...items[idx], ...entry, updated_at: now }` — every candidate field
overrides the old one, `created_at` is kept, `updated_at` is refreshed. -/
def mergeUpdate (old : Item) (e : EntryData) (now : String) : Item :=
  { toEntryData := e, created_at := old.created_at, updated_at := now }

/-- The appended item of the insert branch (src/publish.ts:77-81). -/
def insertItem (e : EntryData) (now : String) : Item :=
  { toEntryData := e, created_at := now, updated_at := now }

/-- `findIndex` + replace-at-index / `push` of `upsertRegistry`
(src/publish.ts:68-82), fused into one structural recursion: the first
item satisfying the match predicate is replaced by the merge; when none
matches the candidate is appended at the end. -/
def upsertItems : List Item → EntryData → String → List Item
  | [], e, now => [insertItem e now]
  | it :: restItems, e, now =>
    if entryMatches e it then mergeUpdate it e now :: restItems
    else it :: upsertItems restItems e now

/-- The first matching item, mirroring `items.findIndex` (src/publish.ts:68). -/
def findMatch : List Item → EntryData → Option Item
  | [], _ => none
  | it :: restItems, e => if entryMatches e it then some it else findMatch restItems e

/-- Embeds `upsertRegistry` (src/publish.ts:65-85).  JavaScript mutates the
shared `items` array in place when `registry.items` is an array, so the
result is a pair: the first component is the returned registry value
`{ ...registry, items }`, the second is the caller's view of the
`registry` argument after the call.  When `registry.items` is an array the
two share the mutated array; otherwise a fresh array is used and the
caller's object is untouched. -/
def upsertRegistry (registry : Registry) (e : EntryData) (now : String) :
    Registry × Registry :=
  match registry.items with
  | some items =>
    let items' := upsertItems items e now
    ({ registry with items := some items' }, { registry with items := some items' })
  | none =>
    let items' := upsertItems [] e now
    ({ registry with items := some items' }, registry)

/-! ## Registry loading (src/publish.ts:144-157) -/

/-- The outcome of `github.getFile('registry.json', baseBranch)` followed by
`JSON.parse`: content absent, content present but unparseable, or a parsed
object. -/
inductive FetchedRegistry where
  | absent
  | malformed
  | parsed (r : Registry)
deriving Repr, DecidableEq

/-- Embeds src/publish.ts:144-157: absent content and JSON parse failure
both silently initialize `{ version: '1', items: [] }`; parsed content is
used as is. -/
def loadRegistry : FetchedRegistry → Registry
  | .absent => initialRegistry
  | .malformed => initialRegistry
  | .parsed r => r

/-! ## Publisher orchestration (src/publish.ts:90-248)

The I/O collaborators are supplied as an environment of their results; the
remote client's mutating calls are recorded as a list of `RemoteWrite`
operations instead of being performed. -/

/-- The publish request fields consumed by the orchestration logic
(src/publish.ts:10-21).  `file` and `githubToken` are consumed only by
collaborators (file read and client construction) and so do not appear
here. -/
structure PublishOptions where
  domain : String
  productName : Option String := none
  ownerTeam : Option String := none
  sourceRepo : Option String := none
  tags : Option (List String) := none
  prdRepo : Option String := none
  baseBranch : Option String := none
  dryRun : Bool := false
deriving Repr, DecidableEq

/-- Results of the I/O collaborators invoked by `publishPrd`:
`validatePrdFile`, `readFileSync`, `extractProductName`,
`normalizeRepoUrl(getGitRemoteUrl())`, the registry fetch + parse, the
clock, and the pull request returned by the remote. -/
structure PublishEnv where
  validationValid : Bool
  validationErrors : List String
  prdContent : String
  extractedName : Option String
  detectedSourceRepo : Option String
  fetched : FetchedRegistry
  now : String
  prNumber : Nat
  prUrl : String
deriving Repr, DecidableEq

/-- Content handed to `createOrUpdateFile`: either raw text (the PRD file)
or the updated registry, standing for its `JSON.stringify` rendering. -/
inductive FileContent where
  | text (s : String)
  | registryJson (r : Registry)
deriving Repr, DecidableEq

/-- A mutating call on the remote client (src/github.ts). -/
inductive RemoteWrite where
  | createBranch (branch base : String)
  | createOrUpdateFile (path : String) (content : FileContent) (message branch : String)
  | createPullRequest (title body head base : String)
deriving Repr, DecidableEq

/-- The structured result of a publish (src/publish.ts:23-29). -/
structure PublishResult where
  success : Bool
  prUrl : Option String := none
  prNumber : Option Nat := none
  error : Option String := none
  dryRun : Option Bool := none
deriving Repr, DecidableEq

/-- JavaScript string truthiness for optional strings: `undefined` and the
empty string are both falsy. -/
def strOrNone : Option String → Option String
  | some s => if s = "" then none else some s
  | none => none

/-- Embeds `.replace(dot-git-at-end, '')` (src/publish.ts:39,46): strip one
trailing `.git` occurrence. -/
def stripGitSuffix (l : List Char) : List Char :=
  if l.reverse.take 4 = ".git".toList.reverse then (l.reverse.drop 4).reverse else l

/-- One attempt of the URL regex `github` dot `com` slash, then group 1
`[^\x2f]+`, a slash, and group 2 `[^\x2f]+`, anchored at the head of `l`
(src/publish.ts:37).  Each group is a maximal nonempty run of non-slash
characters; after the greedy first group the regex requires a literal
slash, and no backtracking can help since the group cannot contain one. -/
def matchGithubAt (l : List Char) : Option (List Char × List Char) :=
  if l.take 11 = "github.com/".toList then
    let rest := l.drop 11
    let a := rest.takeWhile (fun c => c != '/')
    if a.isEmpty then none
    else
      match rest.drop a.length with
      | '/' :: rest3 =>
        let b := rest3.takeWhile (fun c => c != '/')
        if b.isEmpty then none else some (a, b)
      | _ => none
  else none

/-- The unanchored regex search of `repo.match(...)`: try every start
position, leftmost match wins. -/
def findGithubMatch : List Char → Option (List Char × List Char)
  | [] => none
  | c :: cs =>
    match matchGithubAt (c :: cs) with
    | some r => some r
    | none => findGithubMatch cs

/-- Embeds `repo.includes('github.com/')` (src/publish.ts:36): some suffix
starts with the literal. -/
def includesGithub : List Char → Bool
  | [] => false
  | c :: cs =>
    if (c :: cs).take 11 = "github.com/".toList then true else includesGithub cs

/-- Embeds `parseRepo` (src/publish.ts:34-50).  A full URL containing
`github.com/` is matched by the regex (falling through when the regex
fails); otherwise an `owner/repo` shorthand is split at slashes; any other
shape throws `Invalid repo format`, modelled as `none`.  The trailing
`.git` is stripped from the repo part in both successful branches. -/
def parseRepo (repo : String) : Option (String × String) :=
  let l := repo.toList
  match (if includesGithub l then findGithubMatch l else none) with
  | some (a, b) => some (String.mk a, String.mk (stripGitSuffix b))
  | none =>
    if l.contains '/' then
      let owner := l.takeWhile (fun c => c != '/')
      let repoName := (l.drop (owner.length + 1)).takeWhile (fun c => c != '/')
      some (String.mk owner, String.mk (stripGitSuffix repoName))
    else
      none

/-- Product name resolution (src/publish.ts:105-115): an explicit (truthy)
`options.productName` wins, otherwise the name extracted from the PRD. -/
def resolveName (opts : PublishOptions) (env : PublishEnv) : Option String :=
  (strOrNone opts.productName).orElse (fun _ => strOrNone env.extractedName)

/-- `Array.prototype.join(', ')`. -/
def joinComma : List String → String
  | [] => ""
  | [s] => s
  | s :: restLines => s ++ ", " ++ joinComma restLines

/-- `.filter(Boolean).join('\n')` — drops every empty line (including the
intentional blank separators) and joins with newlines. -/
def filterJoinNl (l : List String) : String :=
  String.intercalate "\n" (l.filter (fun s => s ≠ ""))

/-- `now.toISOString().replace(colon-or-dot globally, '-')`
(src/publish.ts:58). -/
def tsReplace (now : String) : String :=
  String.mk (now.toList.map (fun c => if c == ':' || c == '.' then '-' else c))

/-- Embeds `generateBranchName` (src/publish.ts:55-60). -/
def generateBranchName (domain productName now : String) : String :=
  "prd/" ++ domain ++ "/" ++ sanitizeFilename productName ++ "-" ++ tsReplace now

/-- Embeds `publishPrd` (src/publish.ts:90-248) over the collaborator
environment.  Returns the structured result together with the list of
remote write calls performed, in order.  The branch where `registry.items`
is not an array after the upsert models the `TypeError` thrown by
`registry.items.some(...)` at src/publish.ts:171, which the surrounding
`try` converts into an error result (src/publish.ts:242-247). -/
def publishPrd (opts : PublishOptions) (env : PublishEnv) :
    PublishResult × List RemoteWrite :=
  if env.validationValid = false then
    ({ success := false,
       error := some ("PRD validation failed: " ++ joinComma env.validationErrors) }, [])
  else
    match resolveName opts env with
    | none =>
      ({ success := false,
         error := some "Could not extract product name from PRD. Provide --name or ensure PRD starts with \"# PRD: <name>\"" }, [])
    | some productName =>
      let sourceRepo := (strOrNone opts.sourceRepo).orElse
        (fun _ => strOrNone env.detectedSourceRepo)
      let repoUrl := (strOrNone opts.prdRepo).getD "gnyanee97/vulcan-prds"
      match parseRepo repoUrl with
      | none =>
        -- `parseRepo` throws for any other shape (src/publish.ts:49); the
        -- outer catch converts the throw into an error result.
        ({ success := false,
           error := some ("Invalid repo format: " ++ repoUrl
             ++ ". Use \"owner/repo\" or full GitHub URL") }, [])
      | some _ =>
        -- The parsed owner/repo pair only configures the remote client
        -- (src/publish.ts:130-134) and appears in no write payload.
        let baseBranch := (strOrNone opts.baseBranch).getD "main"
        let prdPath := "prds/" ++ opts.domain ++ "/" ++ sanitizeFilename productName ++ ".md"
        let registry := loadRegistry env.fetched
        let entry : EntryData :=
          { product_name := productName
            domain := opts.domain
            owner_team := opts.ownerTeam.getD ""
            source_repo := sourceRepo.getD ""
            prd_path := prdPath
            tags := opts.tags.getD [] }
        let up := upsertRegistry registry entry env.now
        match up.2.items with
        | none =>
          ({ success := false,
             error := some "TypeError: registry.items.some is not a function" }, [])
        | some itemsAfter =>
          let isUpdate := itemsAfter.any
            (fun it => it.prd_path == prdPath || it.product_name == productName)
          let branchName := generateBranchName opts.domain productName env.now
          let prTitle := (if isUpdate then "Update PRD: " else "Add PRD: ") ++ productName
          let prBody := filterJoinNl
            [ "## " ++ (if isUpdate then "Update" else "Add") ++ " PRD: " ++ productName
            , ""
            , "**Domain:** " ++ opts.domain
            , (match strOrNone opts.ownerTeam with
               | some t => "**Owner Team:** " ++ t
               | none => "")
            , (match sourceRepo with
               | some r => "**Source Repo:** " ++ r
               | none => "")
            , (match opts.tags with
               | some ts => if ts.length > 0 then "**Tags:** " ++ joinComma ts else ""
               | none => "")
            , ""
            , "This PR " ++ (if isUpdate then "updates" else "adds")
                ++ " a data product PRD to the central repository."
            , ""
            , "### Changes"
            , "- " ++ (if isUpdate then "Updated" else "Added") ++ " PRD file: `" ++ prdPath ++ "`"
            , "- Updated `registry.json` with PRD metadata"
            , ""
            , "### Next Steps"
            , "- Review PRD content"
            , "- Merge PR to add to index"
            , "- PRD will be automatically indexed after merge" ]
          if opts.dryRun then
            ({ success := true, dryRun := some true }, [])
          else
            ({ success := true, prUrl := some env.prUrl, prNumber := some env.prNumber },
             [ .createBranch branchName baseBranch
             , .createOrUpdateFile prdPath (.text env.prdContent)
                 ((if isUpdate then "Update" else "Add") ++ " PRD: "
                   ++ opts.domain ++ "/" ++ productName) branchName
             , .createOrUpdateFile "registry.json" (.registryJson up.1)
                 ("Update registry for PRD: " ++ opts.domain ++ "/" ++ productName) branchName
             , .createPullRequest prTitle prBody branchName baseBranch ])

/-- The titles of the pull requests among a list of remote writes. -/
def prTitlesOf (ws : List RemoteWrite) : List String :=
  ws.filterMap (fun w => match w with
    | .createPullRequest t _ _ _ => some t
    | _ => none)

/-! ## Predicates used by the specification claims -/

/-- A character allowed by the slug shape `[a-z0-9-]`. -/
def safeChar (c : Char) : Bool :=
  isAlnum c || c == '-'

/-- No two consecutive hyphens. -/
def noDoubleHyphen : List Char → Bool
  | a :: b :: restChars => (!(a == '-' && b == '-')) && noDoubleHyphen (b :: restChars)
  | _ => true

/-- No two items of the list share a `prd_path`. -/
def pathsUnique (l : List Item) : Prop :=
  (l.map (fun it => it.prd_path)).Nodup

instance (l : List Item) : Decidable (pathsUnique l) := by
  unfold pathsUnique
  infer_instance

/-- Fetched registry states whose loaded `items` field is an array: content
absent, content unparseable, or a parsed object carrying an items array. -/
def fetchedItemsArray : FetchedRegistry → Prop
  | .parsed r => r.items ≠ none
  | _ => True

/-! ## Concrete inputs used by counterexamples and witnesses -/

/-- Candidate entry for the product `Foo` in domain `analytics`. -/
def eFoo : EntryData :=
  { product_name := "Foo", domain := "analytics", owner_team := ""
    source_repo := "", prd_path := "prds/analytics/foo.md", tags := [] }

/-- A stored item holding `Foo` at its canonical path. -/
def itFoo : Item :=
  { toEntryData := eFoo, created_at := "2024-01-01T00:00:00.000Z"
    updated_at := "2024-01-01T00:00:00.000Z" }

/-- Candidate that re-publishes `Foo` with new metadata. -/
def eFoo2 : EntryData :=
  { product_name := "Foo", domain := "analytics", owner_team := "data-platform"
    source_repo := "https://github.com/acme/widgets"
    prd_path := "prds/analytics/foo.md", tags := ["pii", "gold"] }

/-- Stored item `n1` at path `p1`. -/
def itA : Item :=
  { product_name := "n1", domain := "d", owner_team := "", source_repo := ""
    prd_path := "p1", tags := [], created_at := "t0", updated_at := "t0" }

/-- Stored item `n2` at path `p2`. -/
def itB : Item :=
  { product_name := "n2", domain := "d", owner_team := "", source_repo := ""
    prd_path := "p2", tags := [], created_at := "t0", updated_at := "t0" }

/-- Candidate matching `itA` by `product_name` alone while carrying
`itB`'s `prd_path`. -/
def eCross : EntryData :=
  { product_name := "n1", domain := "d", owner_team := "", source_repo := ""
    prd_path := "p2", tags := [] }

/-- Registry holding `itA` and `itB`, with distinct paths. -/
def regAB : Registry :=
  { version := some "1", items := some [itA, itB], rest := [] }

/-- Candidate matching `itA` by both keys: same `product_name` and same
`prd_path`. -/
def ePathKeep : EntryData :=
  { product_name := "n1", domain := "d", owner_team := "team-x", source_repo := ""
    prd_path := "p1", tags := ["t1"] }

/-- Publish request for `Foo` in domain `analytics`, not a dry run. -/
def optsFoo : PublishOptions :=
  { domain := "analytics", productName := some "Foo", dryRun := false }

/-- The same request with the dry-run flag set. -/
def optsFooDry : PublishOptions :=
  { domain := "analytics", productName := some "Foo", dryRun := true }

/-- The dry-run request with a target-repo identifier that `parseRepo`
rejects (neither a `github.com/` URL nor an `owner/repo` shorthand). -/
def optsBadRepo : PublishOptions :=
  { domain := "analytics", productName := some "Foo", dryRun := true
    prdRepo := some "not-a-repo-string" }

/-- Collaborator environment: a valid document titled `Foo`, no registry
file on the remote. -/
def envFoo : PublishEnv :=
  { validationValid := true, validationErrors := []
    prdContent := "# PRD: Foo\n\nbody", extractedName := some "Foo"
    detectedSourceRepo := none, fetched := .absent
    now := "2024-01-15T10:30:45.123Z", prNumber := 7
    prUrl := "https://github.com/gnyanee97/vulcan-prds/pull/7" }

/-- The same environment, but the fetched registry content parses to an
object whose `items` field is not an array. -/
def envBadItems : PublishEnv :=
  { envFoo with
    fetched := .parsed { version := some "1", items := none, rest := [("extra", "x")] } }

/-- A parsed registry object with a missing/non-array `items` field and an
extra top-level field. -/
def regNoItems : Registry :=
  { version := some "2", items := none, rest := [("note", "kept")] }

/-- The 101-character name whose cleaned slug is truncated right after a
hyphen: 99 `a`s, then a dot, then `b`. -/
def longDotName : String :=
  String.mk (List.replicate 99 'a' ++ ['.', 'b'])

/-- The 101-character hyphen-safe name on which sanitize is not
idempotent: 99 `a`s, then a hyphen, then `b`. -/
def longHyphenName : String :=
  String.mk (List.replicate 99 'a' ++ ['-', 'b'])

/-! ## Theorems -/

/-- Claim C1: the classification used for the pull-request title/body must
agree with the classification of the registry upsert (update iff the
registry fetched before the upsert contains a matching entry).  The code
violates this: `isUpdate` is computed from `registry.items` after
`upsertRegistry` has mutated that array in place, so a publish against an
empty registry performs an insert yet titles the pull request
`Update PRD: Foo`. -/
theorem publish_title_misclassifies_insert :
    (loadRegistry envFoo.fetched).items = some [] ∧
    findMatch [] eFoo = none ∧
    prTitlesOf (publishPrd optsFoo envFoo).2 = ["Update PRD: Foo"] ∧
    (publishPrd optsFoo envFoo).1.success = true := by
  refine ⟨rfl, rfl, rfl, rfl⟩

/-- Claim C2: `upsertRegistry` must return a new registry value and leave
the input registry unchanged.  The code violates this: the local `items`
binding aliases `registry.items`, so the insert-path `push` is visible
through the caller's object — after upserting into the fresh empty
registry the caller's registry holds one item instead of zero. -/
theorem upsertRegistry_mutates_caller :
    (upsertRegistry initialRegistry eFoo "T0").2 ≠ initialRegistry ∧
    ((upsertRegistry initialRegistry eFoo "T0").2.items.getD []).length = 1 ∧
    (initialRegistry.items.getD []).length = 0 := by
  refine ⟨by decide, rfl, rfl⟩

/-- Claim C3 counterexample: upserting a candidate that matches `itA` by
`product_name` alone while carrying `itB`'s `prd_path` turns a
duplicate-free registry into one with two items at path `p2`. -/
theorem upsert_uniqueness_cex :
    pathsUnique [itA, itB] ∧
    (upsertRegistry regAB eCross "T1").1.items = some [mergeUpdate itA eCross "T1", itB] ∧
    ¬ pathsUnique [mergeUpdate itA eCross "T1", itB] := by
  refine ⟨by decide, rfl, by decide⟩

/-- Claim C4: upserting into a one-item registry whose item shares the
candidate's `prd_path` keeps exactly one item, preserves `created_at`,
stamps `updated_at` with the current time, and lets every candidate field
override the stored one. -/
theorem upsert_single_path_match (reg : Registry) (old : Item) (e : EntryData) (now : String)
    (hreg : reg.items = some [old]) (hpath : old.prd_path = e.prd_path) :
    (upsertRegistry reg e now).1.items = some [mergeUpdate old e now] ∧
    (mergeUpdate old e now).created_at = old.created_at ∧
    (mergeUpdate old e now).updated_at = now ∧
    (mergeUpdate old e now).toEntryData = e := by
  refine ⟨?_, rfl, rfl, rfl⟩
  simp [upsertRegistry, hreg, upsertItems, entryMatches, hpath]

/-- Witness for C4 at a concrete one-item registry and overriding
candidate. -/
theorem upsert_single_path_match_witness :
    (upsertRegistry { version := some "1", items := some [itFoo], rest := [] } eFoo2 "T2").1.items
      = some [mergeUpdate itFoo eFoo2 "T2"] ∧
    (mergeUpdate itFoo eFoo2 "T2").created_at = itFoo.created_at ∧
    (mergeUpdate itFoo eFoo2 "T2").updated_at = "T2" ∧
    (mergeUpdate itFoo eFoo2 "T2").toEntryData = eFoo2 :=
  upsert_single_path_match _ itFoo eFoo2 "T2" rfl rfl

/-- Claim C5: upserting any candidate into a registry with an empty items
sequence yields exactly one item whose `created_at` and `updated_at` are
both the current time. -/
theorem upsert_empty_insert (reg : Registry) (e : EntryData) (now : String)
    (hreg : reg.items = some []) :
    (upsertRegistry reg e now).1.items = some [insertItem e now] ∧
    (insertItem e now).created_at = (insertItem e now).updated_at ∧
    (insertItem e now).created_at = now := by
  refine ⟨?_, rfl, rfl⟩
  simp [upsertRegistry, hreg, upsertItems]

/-- Witness for C5 at the fresh initial registry and the `Foo`
candidate. -/
theorem upsert_empty_insert_witness :
    (upsertRegistry initialRegistry eFoo "T0").1.items = some [insertItem eFoo "T0"] ∧
    (insertItem eFoo "T0").created_at = (insertItem eFoo "T0").updated_at ∧
    (insertItem eFoo "T0").created_at = "T0" :=
  upsert_empty_insert initialRegistry eFoo "T0" rfl

/-- Claim C6: absent and unparseable registry content both load as the
initial registry `{version := 1, items := []}`, the subsequent upsert
coincides with an upsert against the empty registry (and yields the
single-item list), and corrupt content is never surfaced as an error — a
publish over corrupt content behaves exactly like one over absent
content. -/
theorem load_silent_recovery (e : EntryData) (now : String)
    (opts : PublishOptions) (env : PublishEnv) :
    loadRegistry .absent = initialRegistry ∧
    loadRegistry .malformed = initialRegistry ∧
    upsertRegistry (loadRegistry .absent) e now = upsertRegistry initialRegistry e now ∧
    upsertRegistry (loadRegistry .malformed) e now = upsertRegistry initialRegistry e now ∧
    (upsertRegistry (loadRegistry .malformed) e now).1.items = some [insertItem e now] ∧
    publishPrd opts { env with fetched := .malformed }
      = publishPrd opts { env with fetched := .absent } := by
  exact ⟨rfl, rfl, rfl, rfl, rfl, rfl⟩

/-- Claim C10: when the fetched content parses but its `items` field is
missing or not an array, loading does not reinitialize the registry (only
absent or unparseable content does); the upsert treats `items` as empty,
making the candidate the sole item, and carries every other top-level
field of the parsed object through unchanged. -/
theorem upsert_items_not_array (reg : Registry) (e : EntryData) (now : String)
    (h : reg.items = none) :
    loadRegistry (.parsed reg) = reg ∧
    (upsertRegistry reg e now).1 = { reg with items := some [insertItem e now] } ∧
    (upsertRegistry reg e now).1.version = reg.version ∧
    (upsertRegistry reg e now).1.rest = reg.rest ∧
    loadRegistry .absent = initialRegistry ∧
    loadRegistry .malformed = initialRegistry := by
  refine ⟨rfl, ?_, ?_, ?_, rfl, rfl⟩ <;>
    simp [upsertRegistry, h, upsertItems]

/-- Witness for C10 at a parsed registry with non-array `items`, a distinct
version and an extra top-level field. -/
theorem upsert_items_not_array_witness :
    loadRegistry (.parsed regNoItems) = regNoItems ∧
    (upsertRegistry regNoItems eFoo "T0").1
      = { regNoItems with items := some [insertItem eFoo "T0"] } ∧
    (upsertRegistry regNoItems eFoo "T0").1.version = regNoItems.version ∧
    (upsertRegistry regNoItems eFoo "T0").1.rest = regNoItems.rest ∧
    loadRegistry .absent = initialRegistry ∧
    loadRegistry .malformed = initialRegistry :=
  upsert_items_not_array regNoItems eFoo "T0" rfl

/-- Claim C9 counterexample: a dry-run publish of a valid document fails
without the dry-run marker on two inputs the claim quantifies over — a
registry state whose parsed `items` field is not an array (the
classification step throws), and a request whose target-repo identifier
`not-a-repo-string` makes `parseRepo` throw — refuting "for every publish
request ... and any registry state"; no remote write is performed in
either case. -/
theorem publish_dryrun_cex :
    optsFooDry.dryRun = true ∧
    envBadItems.validationValid = true ∧
    (publishPrd optsFooDry envBadItems).1.success = false ∧
    (publishPrd optsFooDry envBadItems).1.dryRun = none ∧
    (publishPrd optsFooDry envBadItems).2 = [] ∧
    optsBadRepo.dryRun = true ∧
    (publishPrd optsBadRepo envFoo).1.success = false ∧
    (publishPrd optsBadRepo envFoo).1.dryRun = none ∧
    (publishPrd optsBadRepo envFoo).1.error
      = some "Invalid repo format: not-a-repo-string. Use \"owner/repo\" or full GitHub URL" ∧
    (publishPrd optsBadRepo envFoo).2 = [] := by
  exact ⟨rfl, rfl, rfl, rfl, rfl, rfl, rfl, rfl, rfl, rfl⟩

/-! ### Character-level lemmas for the sanitize pipeline -/

lemma isAlnum_safe {c : Char} (h : isAlnum c = true) : safeChar c = true := by
  simp [safeChar, h]

lemma hyphen_safe : safeChar '-' = true := by decide

lemma toLowerChar_eq_self {c : Char} (h : safeChar c = true) : toLowerChar c = c := by
  unfold toLowerChar
  rw [if_neg]
  intro hc
  simp only [Bool.and_eq_true, decide_eq_true_eq] at hc
  unfold safeChar isAlnum at h
  simp only [Bool.or_eq_true, Bool.and_eq_true, decide_eq_true_eq, beq_iff_eq] at h
  rcases h with (⟨h1, h2⟩ | ⟨h1, h2⟩) | h
  · omega
  · omega
  · subst h
    exact absurd hc (by decide)

/-! ### The squash stage: every output character is slug-safe -/

lemma squashAux_safe (b : Bool) (l : List Char) : (squashAux b l).all safeChar = true := by
  induction l generalizing b with
  | nil => rfl
  | cons c cs ih =>
    by_cases h : isAlnum c
    · simp [squashAux, h, List.all_cons, isAlnum_safe h, ih]
    · cases b <;> simp [squashAux, h, List.all_cons, hyphen_safe, ih]

lemma squashAux_length_le (b : Bool) (l : List Char) :
    (squashAux b l).length ≤ l.length := by
  induction l generalizing b with
  | nil => simp [squashAux]
  | cons c cs ih =>
    by_cases h : isAlnum c
    · simpa [squashAux, h] using ih false
    · cases b
      · simpa [squashAux, h] using ih true
      · simp [squashAux, h]
        have := ih true
        omega

/-! ### The strip stage: hyphen-free ends -/

lemma dropWhile_head_false {p : Char → Bool} {l : List Char} {c : Char}
    (h : (l.dropWhile p).head? = some c) : p c = false := by
  induction l with
  | nil => simp [List.dropWhile] at h
  | cons a as ih =>
    rw [List.dropWhile_cons] at h
    by_cases hp : p a
    · rw [if_pos hp] at h
      exact ih h
    · rw [if_neg hp] at h
      simp only [List.head?_cons, Option.some.injEq] at h
      subst h
      exact Bool.eq_false_iff.mpr hp

lemma dropWhile_append_singleton {p : Char → Bool} (w : List Char) {c : Char}
    (hc : p c = false) : (w ++ [c]).dropWhile p = w.dropWhile p ++ [c] := by
  induction w with
  | nil => simp [List.dropWhile_cons, hc]
  | cons a as ih =>
    rw [List.cons_append, List.dropWhile_cons, List.dropWhile_cons]
    by_cases hp : p a
    · rw [if_pos hp, if_pos hp, ih]
    · rw [if_neg hp, if_neg hp, List.cons_append]

lemma stripHyphens_getLast (l : List Char) : (stripHyphens l).getLast? ≠ some '-' := by
  unfold stripHyphens
  rw [List.getLast?_reverse]
  intro h
  have := dropWhile_head_false h
  simp at this

lemma stripHyphens_head (l : List Char) : (stripHyphens l).head? ≠ some '-' := by
  unfold stripHyphens
  cases hx : l.dropWhile (fun c => c == '-') with
  | nil => simp
  | cons c cs =>
    have hhead : (l.dropWhile (fun c => c == '-')).head? = some c := by
      rw [hx]
      rfl
    have hc : (c == '-') = false := by
      have := dropWhile_head_false hhead
      simpa using this
    rw [List.reverse_cons, @dropWhile_append_singleton (fun d => d == '-') cs.reverse c hc,
      List.reverse_append]
    simp only [List.reverse_cons, List.reverse_nil, List.nil_append, List.cons_append,
      List.head?_cons, ne_eq, Option.some.injEq]
    intro h
    subst h
    simp at hc

lemma stripHyphens_subset {l : List Char} {c : Char} (h : c ∈ stripHyphens l) : c ∈ l := by
  unfold stripHyphens at h
  rw [List.mem_reverse] at h
  have h2 := (List.dropWhile_sublist _).subset h
  rw [List.mem_reverse] at h2
  exact (List.dropWhile_sublist _).subset h2

lemma stripHyphens_length_le (l : List Char) : (stripHyphens l).length ≤ l.length := by
  unfold stripHyphens
  calc ((l.dropWhile (fun c => c == '-')).reverse.dropWhile (fun c => c == '-')).reverse.length
      = ((l.dropWhile (fun c => c == '-')).reverse.dropWhile (fun c => c == '-')).length := by
        rw [List.length_reverse]
    _ ≤ (l.dropWhile (fun c => c == '-')).reverse.length :=
        (List.dropWhile_sublist _).length_le
    _ = (l.dropWhile (fun c => c == '-')).length := by rw [List.length_reverse]
    _ ≤ l.length := (List.dropWhile_sublist _).length_le

lemma dropWhile_eq_self_of_head {p : Char → Bool} {l : List Char}
    (h : ∀ c, l.head? = some c → p c = false) : l.dropWhile p = l := by
  cases l with
  | nil => rfl
  | cons a as =>
    rw [List.dropWhile_cons, if_neg]
    simp [h a rfl]

lemma stripHyphens_id {l : List Char} (h1 : l.head? ≠ some '-')
    (h2 : l.getLast? ≠ some '-') : stripHyphens l = l := by
  unfold stripHyphens
  have e1 : l.dropWhile (fun c => c == '-') = l := by
    apply dropWhile_eq_self_of_head
    intro c hc
    simp only [beq_eq_false_iff_ne, ne_eq]
    intro hcc
    subst hcc
    exact h1 hc
  rw [e1]
  have e2 : l.reverse.dropWhile (fun c => c == '-') = l.reverse := by
    apply dropWhile_eq_self_of_head
    intro c hc
    rw [List.head?_reverse] at hc
    simp only [beq_eq_false_iff_ne, ne_eq]
    intro hcc
    subst hcc
    exact h2 hc
  rw [e2, List.reverse_reverse]

/-! ### The collapse stage: no doubled hyphens, preserved ends -/

lemma noDouble_cons {a : Char} {z : List Char} (hz : noDoubleHyphen z = true)
    (h : a = '-' → z.head? ≠ some '-') : noDoubleHyphen (a :: z) = true := by
  cases z with
  | nil => rfl
  | cons b z' =>
    have hb : (a == '-' && b == '-') = false := by
      by_cases ha : a = '-'
      · have := h ha
        simp only [List.head?_cons, ne_eq, Option.some.injEq] at this
        simp [this]
      · simp [ha]
    simp [noDoubleHyphen, hb, hz]

lemma collapseHyphens_head_true (cs : List Char) :
    (collapseHyphens true cs).head? ≠ some '-' := by
  induction cs with
  | nil => simp [collapseHyphens]
  | cons c cs' ih =>
    by_cases hc : c == '-'
    · simpa [collapseHyphens, hc] using ih
    · simp only [collapseHyphens, hc, Bool.false_eq_true, if_false, List.head?_cons, ne_eq,
        Option.some.injEq]
      intro h
      subst h
      simp at hc

lemma collapseHyphens_noDouble (b : Bool) (l : List Char) :
    noDoubleHyphen (collapseHyphens b l) = true := by
  induction l generalizing b with
  | nil => rfl
  | cons c cs ih =>
    by_cases hc : c == '-'
    · cases b
      · simp only [collapseHyphens, hc, if_true, Bool.false_eq_true, if_false]
        exact noDouble_cons (ih true) (fun _ => collapseHyphens_head_true cs)
      · simpa [collapseHyphens, hc] using ih true
    · simp only [collapseHyphens, hc, Bool.false_eq_true, if_false]
      refine noDouble_cons (ih false) (fun h => ?_)
      subst h
      simp at hc

lemma collapseHyphens_safe (b : Bool) {l : List Char} (h : l.all safeChar = true) :
    (collapseHyphens b l).all safeChar = true := by
  induction l generalizing b with
  | nil => rfl
  | cons c cs ih =>
    rw [List.all_cons, Bool.and_eq_true] at h
    by_cases hc : c == '-'
    · cases b
      · have := ih true h.2
        simp only [collapseHyphens, hc, if_true, Bool.false_eq_true, if_false, List.all_cons,
          hyphen_safe, Bool.true_and]
        exact this
      · simpa [collapseHyphens, hc] using ih true h.2
    · simpa [collapseHyphens, hc, List.all_cons, h.1] using ih false h.2

lemma collapseHyphens_length_le (b : Bool) (l : List Char) :
    (collapseHyphens b l).length ≤ l.length := by
  induction l generalizing b with
  | nil => simp [collapseHyphens]
  | cons c cs ih =>
    by_cases hc : c == '-'
    · cases b
      · simp only [collapseHyphens, hc, if_true, Bool.false_eq_true, if_false, List.length_cons]
        have := ih true
        omega
      · simp only [collapseHyphens, hc, if_true, List.length_cons]
        have := ih true
        omega
    · simp only [collapseHyphens, hc, Bool.false_eq_true, if_false, List.length_cons]
      have := ih false
      omega

lemma collapseHyphens_head_of_ne {c : Char} (cs : List Char) (hc : ¬ c = '-') :
    (collapseHyphens false (c :: cs)).head? = some c := by
  have hcb : (c == '-') = false := by simp [hc]
  simp [collapseHyphens, hcb]

lemma collapseHyphens_eq_nil {b : Bool} {l : List Char}
    (h : collapseHyphens b l = []) : ∀ c ∈ l, c = '-' := by
  induction l generalizing b with
  | nil => simp
  | cons c cs ih =>
    by_cases hc : c == '-'
    · cases b
      · simp [collapseHyphens, hc] at h
      · simp only [collapseHyphens, hc, if_true] at h
        intro d hd
        rcases List.mem_cons.mp hd with rfl | hd'
        · simpa using hc
        · exact ih h d hd'
    · simp [collapseHyphens, hc] at h

lemma all_hyphen_getLast {m : List Char} (hne : m ≠ []) (h : ∀ c ∈ m, c = '-') :
    m.getLast? = some '-' := by
  rw [List.getLast?_eq_head?_reverse]
  cases hm : m.reverse with
  | nil => exact absurd (by simpa using hm) hne
  | cons a as =>
    have ha : a ∈ m := by
      rw [← List.mem_reverse, hm]
      exact List.mem_cons_self a as
    rw [List.head?_cons, h a ha]

lemma collapseHyphens_getLast (b : Bool) (l : List Char)
    (h : l.getLast? ≠ some '-') : (collapseHyphens b l).getLast? ≠ some '-' := by
  induction l generalizing b with
  | nil => simp [collapseHyphens]
  | cons c cs ih =>
    cases cs with
    | nil =>
      have hc : ¬ c = '-' := by
        simpa using h
      have hcb : (c == '-') = false := by simp [hc]
      simp [collapseHyphens, hcb, hc]
    | cons d ds =>
      rw [List.getLast?_cons_cons] at h
      by_cases hc : (c == '-') = true
      · cases b
        · have e : collapseHyphens false (c :: d :: ds)
              = '-' :: collapseHyphens true (d :: ds) := by
            simp [collapseHyphens, hc]
          rw [e]
          cases hzz : collapseHyphens true (d :: ds) with
          | nil =>
            exact absurd (all_hyphen_getLast (by simp) (collapseHyphens_eq_nil hzz)) h
          | cons e' es =>
            rw [List.getLast?_cons_cons]
            have := ih true h
            rwa [hzz] at this
        · have e : collapseHyphens true (c :: d :: ds) = collapseHyphens true (d :: ds) := by
            simp [collapseHyphens, hc]
          rw [e]
          exact ih true h
      · have e : collapseHyphens b (c :: d :: ds) = c :: collapseHyphens false (d :: ds) := by
          cases b <;> simp [collapseHyphens, hc]
        rw [e]
        cases hzz : collapseHyphens false (d :: ds) with
        | nil =>
          have hcc : ¬ c = '-' := by simpa using hc
          simp [hcc]
        | cons e' es =>
          rw [List.getLast?_cons_cons]
          have := ih false h
          rwa [hzz] at this

/-! ### The truncation stage -/

lemma noDouble_take : ∀ (l : List Char) (n : Nat), noDoubleHyphen l = true →
    noDoubleHyphen (l.take n) = true := by
  intro l
  induction l with
  | nil => intro n _; simp [noDoubleHyphen]
  | cons c cs ih =>
    intro n h
    cases n with
    | zero => rfl
    | succ m =>
      rw [List.take_succ_cons]
      cases cs with
      | nil => simp [noDoubleHyphen]
      | cons d ds =>
        cases m with
        | zero => rfl
        | succ k =>
          rw [List.take_succ_cons]
          have h1 : (!(c == '-' && d == '-')) = true := by
            simp only [noDoubleHyphen, Bool.and_eq_true] at h
            exact h.1
          have h2 := ih (k + 1) (by
            simp only [noDoubleHyphen, Bool.and_eq_true] at h
            exact h.2)
          rw [List.take_succ_cons] at h2
          simp only [noDoubleHyphen, Bool.and_eq_true]
          exact ⟨h1, h2⟩

lemma head?_take_pos {l : List Char} {n : Nat} (h : 0 < n) :
    (l.take n).head? = l.head? := by
  cases l with
  | nil => simp
  | cons c cs =>
    cases n with
    | zero => omega
    | succ m => rw [List.take_succ_cons, List.head?_cons, List.head?_cons]

/-! ### Assembled shape of the cleaning pipeline -/

lemma cleanedList_safe (l : List Char) : (cleanedList l).all safeChar = true := by
  unfold cleanedList
  rw [List.all_eq_true]
  intro c hc
  have hc2 := List.take_subset _ _ hc
  have hstrip : (stripHyphens (squashAux false (l.map toLowerChar))).all safeChar = true := by
    rw [List.all_eq_true]
    intro d hd
    exact (List.all_eq_true.mp (squashAux_safe false _)) d (stripHyphens_subset hd)
  exact (List.all_eq_true.mp (collapseHyphens_safe false hstrip)) c hc2

lemma cleanedList_head (l : List Char) : (cleanedList l).head? ≠ some '-' := by
  unfold cleanedList
  rw [head?_take_pos (by omega)]
  cases hs : stripHyphens (squashAux false (l.map toLowerChar)) with
  | nil => simp [collapseHyphens]
  | cons c cs =>
    have hc : ¬ c = '-' := by
      have := stripHyphens_head (squashAux false (l.map toLowerChar))
      rw [hs, List.head?_cons] at this
      simpa using this
    rw [collapseHyphens_head_of_ne cs hc]
    simpa using hc

lemma cleanedList_noDouble (l : List Char) : noDoubleHyphen (cleanedList l) = true :=
  noDouble_take _ _ (collapseHyphens_noDouble false _)

lemma cleanedList_length (l : List Char) : (cleanedList l).length ≤ 100 := by
  unfold cleanedList
  simp only [List.length_take]
  omega

lemma cleanedList_length_le (l : List Char) : (cleanedList l).length ≤ l.length := by
  unfold cleanedList
  calc ((collapseHyphens false (stripHyphens (squashAux false (l.map toLowerChar)))).take 100).length
      ≤ (collapseHyphens false (stripHyphens (squashAux false (l.map toLowerChar)))).length := by
        simp only [List.length_take]
        omega
    _ ≤ (stripHyphens (squashAux false (l.map toLowerChar))).length :=
        collapseHyphens_length_le false _
    _ ≤ (squashAux false (l.map toLowerChar)).length := stripHyphens_length_le _
    _ ≤ (l.map toLowerChar).length := squashAux_length_le false _
    _ = l.length := List.length_map _ _

lemma cleanedList_getLast (l : List Char)
    (h : (collapseHyphens false (stripHyphens (squashAux false (l.map toLowerChar)))).length ≤ 100) :
    (cleanedList l).getLast? ≠ some '-' := by
  unfold cleanedList
  rw [List.take_of_length_le h]
  exact collapseHyphens_getLast false _ (stripHyphens_getLast _)

/-! ### Fixed points of the cleaning pipeline -/

lemma safe_not_alnum {c : Char} (hs : safeChar c = true) (ha : ¬ isAlnum c = true) :
    c = '-' := by
  simp only [safeChar, Bool.or_eq_true, beq_iff_eq] at hs
  rcases hs with h | h
  · exact absurd h ha
  · exact h

lemma noDouble_tail {c : Char} {cs : List Char} (h : noDoubleHyphen (c :: cs) = true) :
    noDoubleHyphen cs = true := by
  cases cs with
  | nil => rfl
  | cons d ds =>
    simp only [noDoubleHyphen, Bool.and_eq_true] at h
    exact h.2

lemma noDouble_hyphen_head {cs : List Char} (h : noDoubleHyphen ('-' :: cs) = true) :
    cs.head? ≠ some '-' := by
  cases cs with
  | nil => simp
  | cons d ds =>
    simp only [noDoubleHyphen, Bool.and_eq_true] at h
    intro hd
    simp only [List.head?_cons, Option.some.injEq] at hd
    subst hd
    simp at h

lemma squashAux_id (l : List Char) (hs : l.all safeChar = true)
    (hd : noDoubleHyphen l = true) :
    squashAux false l = l ∧ (l.head? ≠ some '-' → squashAux true l = l) := by
  induction l with
  | nil => exact ⟨rfl, fun _ => rfl⟩
  | cons c cs ih =>
    rw [List.all_cons, Bool.and_eq_true] at hs
    have ihm := ih hs.2 (noDouble_tail hd)
    by_cases ha : isAlnum c = true
    · exact ⟨by simp [squashAux, ha, ihm.1], fun _ => by simp [squashAux, ha, ihm.1]⟩
    · have hc : c = '-' := safe_not_alnum hs.1 ha
      subst hc
      have hh : cs.head? ≠ some '-' := noDouble_hyphen_head hd
      exact ⟨by simp [squashAux, ha, ihm.2 hh], fun hcontra => absurd rfl hcontra⟩

lemma collapseHyphens_id (l : List Char) (hd : noDoubleHyphen l = true) :
    collapseHyphens false l = l ∧ (l.head? ≠ some '-' → collapseHyphens true l = l) := by
  induction l with
  | nil => exact ⟨rfl, fun _ => rfl⟩
  | cons c cs ih =>
    have ihm := ih (noDouble_tail hd)
    by_cases hc : c = '-'
    · subst hc
      have hh : cs.head? ≠ some '-' := noDouble_hyphen_head hd
      exact ⟨by simp [collapseHyphens, ihm.2 hh], fun hcontra => absurd rfl hcontra⟩
    · have hcb : (c == '-') = false := by simp [hc]
      exact ⟨by simp [collapseHyphens, hcb, ihm.1], fun _ => by simp [collapseHyphens, hcb, ihm.1]⟩

lemma map_toLower_id {l : List Char} (hs : l.all safeChar = true) :
    l.map toLowerChar = l := by
  rw [List.all_eq_true] at hs
  have : ∀ c ∈ l, toLowerChar c = id c := fun c hc => toLowerChar_eq_self (hs c hc)
  rw [List.map_congr_left this, List.map_id]

lemma sanitizeList_id {l : List Char} (hne : l ≠ []) (hs : l.all safeChar = true)
    (hd : noDoubleHyphen l = true) (hh : l.head? ≠ some '-') (hl : l.getLast? ≠ some '-')
    (hlen : l.length ≤ 100) : sanitizeList l = l := by
  unfold sanitizeList cleanedList
  rw [map_toLower_id hs, (squashAux_id l hs hd).1, stripHyphens_id hh hl,
    (collapseHyphens_id l hd).1, List.take_of_length_le hlen]
  simp [List.isEmpty_iff, hne]

lemma cleanedList_pre_length_le (l : List Char) (h : l.length ≤ 100) :
    (collapseHyphens false (stripHyphens (squashAux false (l.map toLowerChar)))).length ≤ 100 := by
  have h1 := collapseHyphens_length_le false (stripHyphens (squashAux false (l.map toLowerChar)))
  have h2 := stripHyphens_length_le (squashAux false (l.map toLowerChar))
  have h3 := squashAux_length_le false (l.map toLowerChar)
  rw [List.length_map] at h3
  omega

lemma sanitizeList_idem_of_le {l : List Char} (hlen : l.length ≤ 100) :
    sanitizeList (sanitizeList l) = sanitizeList l := by
  by_cases hnil : cleanedList l = []
  · have hfall : sanitizeList l = "data-product-prd".toList := by
      unfold sanitizeList
      simp [hnil]
    rw [hfall]
    rfl
  · have hsl : sanitizeList l = cleanedList l := by
      unfold sanitizeList
      simp [List.isEmpty_iff, hnil]
    rw [hsl]
    exact sanitizeList_id hnil (cleanedList_safe l) (cleanedList_noDouble l)
      (cleanedList_head l)
      (cleanedList_getLast l (cleanedList_pre_length_le l hlen))
      (cleanedList_length l)

/-- Claim C7 counterexample: the claim asserts no trailing hyphen for every
input, but truncation to 100 characters happens after the hyphen-stripping
steps, so the 101-character name of 99 `a`s, a dot and a `b` sanitizes to
99 `a`s followed by a hyphen. -/
theorem sanitize_trailing_hyphen_cex :
    sanitizeFilename longDotName = String.mk (List.replicate 99 'a' ++ ['-']) ∧
    (sanitizeFilename longDotName).toList.getLast? = some '-' := by
  exact ⟨by decide, by decide⟩

/-- Claim C7 (amended): every sanitized name has length at most 100,
consists only of characters in `[a-z0-9-]`, has no leading hyphen and no
two consecutive hyphens; it has no trailing hyphen whenever the cleaned
string before truncation is at most 100 characters long (truncation can
leave a trailing hyphen); and whenever the cleaning steps yield the empty
string the result is the fixed fallback slug `data-product-prd`. -/
theorem sanitize_shape (s : String) :
    (sanitizeFilename s).length ≤ 100 ∧
    (sanitizeFilename s).toList.all safeChar = true ∧
    (sanitizeFilename s).toList.head? ≠ some '-' ∧
    noDoubleHyphen (sanitizeFilename s).toList = true ∧
    ((collapseHyphens false (stripHyphens (squashAux false (s.toList.map toLowerChar)))).length
        ≤ 100 → (sanitizeFilename s).toList.getLast? ≠ some '-') ∧
    (cleanedList s.toList = [] → sanitizeFilename s = "data-product-prd") := by
  by_cases hnil : cleanedList s.toList = []
  · have hfall : sanitizeFilename s = "data-product-prd" := by
      have hfb : sanitizeList s.toList = "data-product-prd".toList := by
        unfold sanitizeList
        rw [hnil]
        rfl
      show String.mk (sanitizeList s.toList) = "data-product-prd"
      rw [hfb]
      rfl
    rw [hfall]
    exact ⟨by decide, by decide, by decide, by decide, fun _ => by decide, fun _ => rfl⟩
  · have hnil' : ¬ cleanedList s.data = [] := hnil
    have hcl : (sanitizeFilename s).toList = cleanedList s.toList := by
      unfold sanitizeFilename sanitizeList
      simp [List.isEmpty_iff, hnil']
    have hlen : (sanitizeFilename s).length = (cleanedList s.toList).length := by
      show (sanitizeFilename s).toList.length = _
      rw [hcl]
    refine ⟨?_, ?_, ?_, ?_, ?_, fun h => absurd h hnil⟩
    · rw [hlen]
      exact cleanedList_length _
    · rw [hcl]
      exact cleanedList_safe _
    · rw [hcl]
      exact cleanedList_head _
    · rw [hcl]
      exact cleanedList_noDouble _
    · intro h
      rw [hcl]
      exact cleanedList_getLast _ h

/-- Witness for C7: the conditional clauses fire at concrete inputs — a
short name keeps a hyphen-free tail, and `!!!` cleans to the empty string
and falls back to the fixed slug. -/
theorem sanitize_shape_witness :
    (sanitizeFilename "Device 360!").toList.getLast? ≠ some '-' ∧
    sanitizeFilename "!!!" = "data-product-prd" ∧
    sanitizeFilename "" = "data-product-prd" :=
  ⟨(sanitize_shape "Device 360!").2.2.2.2.1 (by decide),
   (sanitize_shape "!!!").2.2.2.2.2 (by decide),
   (sanitize_shape "").2.2.2.2.2 (by decide)⟩

/-- Claim C8 counterexample: the 101-character name of 99 `a`s, a hyphen
and a `b` is non-empty and contains only filename-safe characters, yet
sanitizing it twice strips the trailing hyphen that the first
truncation left, so sanitize is not idempotent on it. -/
theorem sanitize_idempotent_cex :
    longHyphenName ≠ "" ∧
    longHyphenName.toList.all safeChar = true ∧
    sanitizeFilename (sanitizeFilename longHyphenName) ≠ sanitizeFilename longHyphenName := by
  exact ⟨by decide, by decide, by decide⟩

/-- Claim C8 (amended): sanitize is idempotent on every non-empty string of
filename-safe characters whose length is at most 100 (so that the
100-character truncation does not fire). -/
theorem sanitize_idempotent (s : String) (h1 : s ≠ "")
    (h2 : s.toList.all safeChar = true) (h3 : s.length ≤ 100) :
    sanitizeFilename (sanitizeFilename s) = sanitizeFilename s := by
  have hlen : s.toList.length ≤ 100 := h3
  exact congrArg String.mk (sanitizeList_idem_of_le hlen)

/-- Witness for C8 at a concrete safe slug. -/
theorem sanitize_idempotent_witness :
    "device-360" ≠ "" ∧ "device-360".toList.all safeChar = true ∧
    "device-360".length ≤ 100 ∧
    sanitizeFilename (sanitizeFilename "device-360") = sanitizeFilename "device-360" :=
  ⟨by decide, by decide, by decide,
   sanitize_idempotent "device-360" (by decide) (by decide) (by decide)⟩

/-! ### Path uniqueness under upsert -/

lemma upsertItems_paths_subset {items : List Item} {e : EntryData} {now : String} {p : String}
    (hp : p ∈ (upsertItems items e now).map (fun it => it.prd_path)) :
    p ∈ items.map (fun it => it.prd_path) ∨ p = e.prd_path := by
  induction items with
  | nil =>
    right
    simpa [upsertItems, insertItem] using hp
  | cons it restItems ih =>
    by_cases hm : entryMatches e it
    · rw [show upsertItems (it :: restItems) e now = mergeUpdate it e now :: restItems from
        by simp [upsertItems, hm], List.map_cons] at hp
      rcases List.mem_cons.mp hp with h1 | h1
      · right
        exact h1
      · left
        rw [List.map_cons]
        exact List.mem_cons_of_mem _ h1
    · rw [show upsertItems (it :: restItems) e now = it :: upsertItems restItems e now from
        by simp [upsertItems, hm], List.map_cons] at hp
      rcases List.mem_cons.mp hp with h1 | h1
      · left
        rw [List.map_cons]
        exact h1 ▸ List.mem_cons_self _ _
      · rcases ih h1 with h2 | h2
        · left
          rw [List.map_cons]
          exact List.mem_cons_of_mem _ h2
        · right
          exact h2

lemma upsertItems_nodup (items : List Item) (e : EntryData) (now : String)
    (hu : pathsUnique items)
    (hcross : ∀ it, findMatch items e = some it → it.prd_path ≠ e.prd_path →
        ∀ it2 ∈ items, it2.prd_path ≠ e.prd_path) :
    pathsUnique (upsertItems items e now) := by
  induction items with
  | nil => simp [upsertItems, pathsUnique, insertItem]
  | cons it restItems ih =>
    unfold pathsUnique at hu ⊢
    rw [List.map_cons, List.nodup_cons] at hu
    by_cases hm : entryMatches e it
    · rw [show upsertItems (it :: restItems) e now = mergeUpdate it e now :: restItems from
        by simp [upsertItems, hm], List.map_cons, List.nodup_cons]
      refine ⟨?_, hu.2⟩
      show ¬ e.prd_path ∈ restItems.map (fun it => it.prd_path)
      by_cases hpath : it.prd_path = e.prd_path
      · rw [← hpath]
        exact hu.1
      · have hfm : findMatch (it :: restItems) e = some it := by simp [findMatch, hm]
        intro hmem
        rcases List.mem_map.mp hmem with ⟨it2, hit2, hpe⟩
        exact hcross it hfm hpath it2 (List.mem_cons_of_mem _ hit2) hpe
    · rw [show upsertItems (it :: restItems) e now = it :: upsertItems restItems e now from
        by simp [upsertItems, hm], List.map_cons, List.nodup_cons]
      constructor
      · intro hmem
        rcases upsertItems_paths_subset hmem with h1 | h1
        · exact hu.1 h1
        · apply hm
          unfold entryMatches
          simp [h1]
      · apply ih hu.2
        intro it' hfm' hpath' it2 hit2
        have hfm2 : findMatch (it :: restItems) e = some it' := by
          simp [findMatch, hm, hfm']
        exact hcross it' hfm2 hpath' it2 (List.mem_cons_of_mem _ hit2)

/-- Claim C3 (amended): for every registry with pairwise-distinct
`prd_path`s the upsert preserves that uniqueness, provided the candidate
does not match an existing entry by `product_name` alone while carrying
the `prd_path` of a different entry (in that excluded case — the
counterexample — the merged entry duplicates the other entry's path). -/
theorem upsert_preserves_path_uniqueness (reg : Registry) (items : List Item)
    (e : EntryData) (now : String) (hreg : reg.items = some items)
    (hu : pathsUnique items)
    (hcross : ∀ it, findMatch items e = some it → it.prd_path ≠ e.prd_path →
        ∀ it2 ∈ items, it2.prd_path ≠ e.prd_path) :
    (upsertRegistry reg e now).1.items = some (upsertItems items e now) ∧
    pathsUnique (upsertItems items e now) := by
  refine ⟨by simp [upsertRegistry, hreg], ?_⟩
  exact upsertItems_nodup items e now hu hcross

/-- Witness for C3 (amended): re-publishing `n1` under a new name slug but
the same path `p1` keeps the two paths `p1`, `p2` distinct. -/
theorem upsert_preserves_path_uniqueness_witness :
    (upsertRegistry regAB ePathKeep "T3").1.items = some (upsertItems [itA, itB] ePathKeep "T3") ∧
    pathsUnique (upsertItems [itA, itB] ePathKeep "T3") :=
  upsert_preserves_path_uniqueness regAB [itA, itB] ePathKeep "T3" rfl (by decide)
    (by
      intro it hit hne it2 hmem
      exfalso
      apply hne
      have h0 : findMatch [itA, itB] ePathKeep = some itA := rfl
      rw [h0] at hit
      injection hit with h
      rw [← h]
      rfl)

/-! ### Dry-run publishes perform no remote writes -/

lemma loadRegistry_items_ne_none {f : FetchedRegistry} (h : fetchedItemsArray f) :
    (loadRegistry f).items ≠ none := by
  cases f with
  | absent => simp [loadRegistry, initialRegistry]
  | malformed => simp [loadRegistry, initialRegistry]
  | parsed r => exact h

lemma upsertRegistry_snd_items_ne {reg : Registry} (e : EntryData) (now : String)
    (h : reg.items ≠ none) : (upsertRegistry reg e now).2.items ≠ none := by
  cases hr : reg.items with
  | none => exact absurd hr h
  | some items => simp [upsertRegistry, hr]

/-- Claim C9 (amended): a dry-run publish succeeds with the dry-run marker
set, no pull-request number or URL, and zero remote writes, for every
request with a valid document from which a product name is resolved, a
target-repo identifier that `parseRepo` accepts (the default one is), and
a registry state whose fetched content is absent, unparseable, or parses
to an object with an items array.  (An unresolvable name, an invalid repo
identifier, or a parsed non-array items field instead yields an error
without the dry-run marker — still with zero remote writes.) -/
theorem publish_dryrun_no_writes (opts : PublishOptions) (env : PublishEnv)
    (hdry : opts.dryRun = true) (hvalid : env.validationValid = true)
    (hname : (resolveName opts env).isSome = true)
    (hrepo : (parseRepo ((strOrNone opts.prdRepo).getD "gnyanee97/vulcan-prds")).isSome = true)
    (hfetch : fetchedItemsArray env.fetched) :
    (publishPrd opts env).1.success = true ∧
    (publishPrd opts env).1.dryRun = some true ∧
    (publishPrd opts env).1.prNumber = none ∧
    (publishPrd opts env).1.prUrl = none ∧
    (publishPrd opts env).2 = [] := by
  have hres : publishPrd opts env = ({ success := true, dryRun := some true }, []) := by
    obtain ⟨n, hn⟩ := Option.isSome_iff_exists.mp hname
    obtain ⟨pr, hpr⟩ := Option.isSome_iff_exists.mp hrepo
    simp only [publishPrd, hvalid, hn, hpr, hdry, Bool.true_eq_false, ite_false, ite_true,
      eq_self_iff_true]
    split
    · rename_i hitems
      exact absurd hitems
        (upsertRegistry_snd_items_ne _ env.now (loadRegistry_items_ne_none hfetch))
    · rfl
  rw [hres]
  exact ⟨rfl, rfl, rfl, rfl, rfl⟩

/-- Witness for C9 (amended): the concrete dry-run request for `Foo`
against an absent registry file, with the default target repo. -/
theorem publish_dryrun_no_writes_witness :
    (publishPrd optsFooDry envFoo).1.success = true ∧
    (publishPrd optsFooDry envFoo).1.dryRun = some true ∧
    (publishPrd optsFooDry envFoo).1.prNumber = none ∧
    (publishPrd optsFooDry envFoo).1.prUrl = none ∧
    (publishPrd optsFooDry envFoo).2 = [] :=
  publish_dryrun_no_writes optsFooDry envFoo rfl rfl (by decide) (by decide) trivial

end Vulcan
